import Mathlib

/-!
Verification of the ReelForge karaoke-overlay and duration-reconciliation
core against its specification.

The development shallowly embeds the timing- and layout-relevant parts of
`animation_compositor_agent.py`, `text_overlay_agent.py`,
`dialogue_overlay_agent.py`, `animated_reel_orchestrator.py` and
`resume_composition.py`.  Durations and timestamps are modelled as rationals
(`ℚ`); all arithmetic in the source is on Python floats whose values in the
relevant comparisons (multiples of `0.05`, `0.1`, word widths `len * 52.0`,
millisecond timestamps divided by `1000.0`) are exactly representable, so the
rational model has the same branch behaviour.  The MoviePy library is
external to the repository and is modelled at its documented interface:
`subclipped(0, d)` yields duration `d`, the time warp `t ↦ t * s` plays the
whole source in duration `D / s`, `with_duration` sets the duration,
concatenation adds durations, and `with_audio` replaces the audio track
without changing the clip's duration.  Screen geometry (pixel positions and
crops) is not needed by any verified property and is omitted from the
overlay model; the timing fields are translated faithfully.
-/

namespace ReelForge

/-! ## Duration reconciliation engine (`AnimationCompositorAgent._sync_video_to_audio`) -/

/-- Outcome of `_sync_video_to_audio`, keeping the branch taken and the
duration data each branch computes.  `passthrough` keeps the video clip
itself (duration unchanged); `trimmed` is `subclipped(0, audio_duration)`;
`stretched` records the `speed_factor` and the stretched clip's duration;
`stretchFreeze` records the slowed segment's duration
(`video_duration / 0.7`) and the freeze segment's duration
(`audio_duration - slowed_duration`). -/
inductive SyncResult where
  | passthrough (videoDuration : ℚ)
  | trimmed (newDuration : ℚ)
  | stretched (speedFactor newDuration : ℚ)
  | stretchFreeze (slowedDuration freezeDuration : ℚ)
deriving DecidableEq, Repr

/-- Embedding of `AnimationCompositorAgent._sync_video_to_audio`, lines 120-148:
branch on `abs(video_duration - audio_duration) < 0.1`, then
`video_duration > audio_duration`, then `speed_factor >= 0.7`. -/
def sync_video_to_audio (video_duration audio_duration : ℚ) : SyncResult :=
  if |video_duration - audio_duration| < 1/10 then
    .passthrough video_duration
  else if video_duration > audio_duration then
    .trimmed audio_duration
  else
    let speed_factor := video_duration / audio_duration
    if speed_factor ≥ 7/10 then
      .stretched speed_factor (video_duration / speed_factor)
    else
      .stretchFreeze (video_duration / (7/10))
        (audio_duration - video_duration / (7/10))

/-- Duration of the reconciled track: the pass-through branch keeps the
video's duration (`with_audio` does not change it); trimming yields the trim
bound; stretching yields the stretched duration; stretch-plus-freeze
concatenates the slowed segment and the frozen last frame. -/
def SyncResult.finalDuration : SyncResult → ℚ
  | .passthrough d => d
  | .trimmed d => d
  | .stretched _ d => d
  | .stretchFreeze s f => s + f

/-! ## Karaoke line grouping (`TextOverlayAgent.create_karaoke_clips`, lines 79-101) -/

/-- One Polly speech mark: a `type` discriminator (only `"word"` marks are
consumed), the word text (`value`) and its start time in milliseconds. -/
structure SpeechMark where
  type : String
  value : String
  time : ℚ
deriving DecidableEq, Repr, Inhabited

/-- Width heuristic `estimated_w = len(word_text) * (self.font_size * 0.8)`
(line 90 of `text_overlay_agent.py`). -/
def estimated_width (font_size : ℚ) (w : String) : ℚ :=
  (w.length : ℚ) * (font_size * (8/10))

/-- The grouping loop of `create_karaoke_clips` (lines 86-101), with
accumulator state `(lines, current_line, current_width)`.  A new line starts
when the current line already holds `max_words_per_line` marks, or when
adding the next mark's estimated width would exceed `max_line_width` and the
current line is non-empty; on a break `current_width` restarts at the new
mark's width, otherwise the width plus `word_spacing` is accumulated.  At the
end a non-empty current line is flushed. -/
def group_words_loop (max_words : ℕ) (max_line_width word_spacing font_size : ℚ) :
    List SpeechMark → List (List SpeechMark) → List SpeechMark → ℚ → List (List SpeechMark)
  | [], lines, curr, _ => if curr = [] then lines else lines ++ [curr]
  | m :: rest, lines, curr, cw =>
    let e := estimated_width font_size m.value
    if max_words ≤ curr.length ∨ (max_line_width < cw + e ∧ curr ≠ []) then
      group_words_loop max_words max_line_width word_spacing font_size rest
        (lines ++ [curr]) [m] e
    else
      group_words_loop max_words max_line_width word_spacing font_size rest
        lines (curr ++ [m]) (cw + e + word_spacing)

/-- Line grouping of `create_karaoke_clips`, starting from empty state.  The
source fixes `max_words_per_line = 3`, `max_line_width = 900`,
`word_spacing = 15`, `font_size = 65`; they are kept as parameters here and
instantiated with those values in concrete computations. -/
def group_words (max_words : ℕ) (max_line_width word_spacing font_size : ℚ)
    (marks : List SpeechMark) : List (List SpeechMark) :=
  group_words_loop max_words max_line_width word_spacing font_size marks [] [] 0

/-- Cumulative estimated pixel width of a line's marks including the
inter-word spacing between consecutive marks. -/
def line_width (word_spacing font_size : ℚ) (line : List SpeechMark) : ℚ :=
  (line.map fun m => estimated_width font_size m.value).sum
    + ((line.length - 1 : ℕ) : ℚ) * word_spacing

/-! ## Karaoke line and word timing (`create_karaoke_clips`, lines 110-199) -/

/-- First word's timestamp of a line (`line[0]["time"]`); `0` for the empty
list, which the source never queries. -/
def first_time : List SpeechMark → ℚ
  | [] => 0
  | m :: _ => m.time

/-- Last word's timestamp of a line (`line[-1]["time"]`); `0` for the empty
list, which the source never queries. -/
def last_time (line : List SpeechMark) : ℚ :=
  (line.getLast?.map SpeechMark.time).getD 0

/-- Per-line `(line_start_rel, line_duration)` as computed in lines 113-120:
`line_start_abs = line[0].time / 1000`; `line_end_abs` is the next line's
first timestamp over 1000 when a next line exists, otherwise the last
timestamp over 1000 plus `0.8`; `line_duration = max(0.2, end - start)`;
`line_start_rel = max(0, line_start_abs + scene_start_time)`. -/
def line_timings (scene_start : ℚ) : List (List SpeechMark) → List (ℚ × ℚ)
  | [] => []
  | [line] =>
    let s := first_time line / 1000
    [(max 0 (s + scene_start), max (1/5) (last_time line / 1000 + 4/5 - s))]
  | line :: next :: rest =>
    let s := first_time line / 1000
    (max 0 (s + scene_start), max (1/5) (first_time next / 1000 - s))
      :: line_timings scene_start (next :: rest)

/-- Per-word `(word_start_rel, word_duration)` within one line
(lines 184-190): `word_start_rel = mark.time / 1000 + scene_start_time`;
`word_end_rel` is the next in-line word's start when one exists, otherwise
`line_start_rel + line_duration`; `word_duration = max(0.1, end - start)`. -/
def word_timings_line (scene_start line_start_rel line_duration : ℚ) :
    List SpeechMark → List (ℚ × ℚ)
  | [] => []
  | [m] =>
    let ws := m.time / 1000 + scene_start
    [(ws, max (1/10) (line_start_rel + line_duration - ws))]
  | m :: next :: rest =>
    let ws := m.time / 1000 + scene_start
    (ws, max (1/10) (next.time / 1000 + scene_start - ws))
      :: word_timings_line scene_start line_start_rel line_duration (next :: rest)

/-- A renderable overlay unit, keeping the timing fields.  `staticText` is
the static fallback dialogue block; `lineBase` is the always-visible base
line; `wordHighlight` is one word's cropped highlight slice.  Pixel
geometry is not modelled. -/
inductive Overlay where
  | staticText (start duration : ℚ)
  | lineBase (start duration : ℚ)
  | wordHighlight (start duration : ℚ)
deriving DecidableEq, Repr

/-- Embedding of `TextOverlayAgent.create_karaoke_clips`: empty mark list and
no-word-mark early returns (lines 70-77), grouping with the source's fixed
layout constants, then per line one base clip plus one highlight clip per
word (rendering modelled as always succeeding). -/
def create_karaoke_clips (scene_start : ℚ) (speech_marks : List SpeechMark) :
    List Overlay :=
  if speech_marks = [] then []
  else
    let word_marks := speech_marks.filter fun m => m.type = "word"
    if word_marks = [] then []
    else
      let lines := group_words 3 900 15 65 word_marks
      (lines.zip (line_timings scene_start lines)).flatMap fun p =>
        Overlay.lineBase p.2.1 p.2.2
          :: (word_timings_line scene_start p.2.1 p.2.2 p.1).map fun w =>
            Overlay.wordHighlight w.1 w.2

/-- Embedding of `DialogueOverlayAgent.create_dialogue_overlay_clips` (lines 52-80): when
the loaded speech-mark list is empty, one static dialogue block starting at
`scene_start_time` with duration `scene_duration`; otherwise the karaoke
path. -/
def create_dialogue_overlay_clips (scene_start scene_duration : ℚ)
    (speech_marks : List SpeechMark) : List Overlay :=
  if speech_marks = [] then [Overlay.staticText scene_start scene_duration]
  else create_karaoke_clips scene_start speech_marks

/-! ## Scene start times (`_calculate_scene_start_times`, `resume_composition`) -/

/-- The accumulation loop shared by
`AnimatedReelOrchestrator._calculate_scene_start_times` (lines 229-242) and
`resume_composition` (lines 90-102): each scene's start time is appended
before its own measured audio duration is added to the running total. -/
def scene_start_times_loop : List ℚ → ℚ → List ℚ
  | [], _ => []
  | d :: rest, acc => acc :: scene_start_times_loop rest (acc + d)

/-- Scene start times from the list of actual measured audio durations,
starting the running total at `0.0`. -/
def calculate_scene_start_times (durations : List ℚ) : List ℚ :=
  scene_start_times_loop durations 0

/-! ## Scene compositing (`AnimationCompositorAgent.composite_scenes`) -/

/-- A video clip at the interface level: duration, frame size, and the
attached audio track (modelled by its duration, `none` when the clip keeps
its own original audio). -/
structure Clip where
  duration : ℚ
  size : ℤ × ℤ
  audio : Option ℚ
deriving DecidableEq, Repr, Inhabited

/-- Clip-level effect of `_sync_video_to_audio`: the duration becomes the
reconciled duration, the frame size is unchanged, and `with_audio` (line
151) attaches the target audio in every branch. -/
def sync_clip (video : Clip) (audio_duration : ℚ) : Clip :=
  { duration := (sync_video_to_audio video.duration audio_duration).finalDuration
    size := video.size
    audio := some audio_duration }

/-- Clip-level effect of `_resize_and_crop` (lines 155-202): centre-crop to
the target aspect ratio and scale, so the output frame size is exactly
`target_size`; duration and audio are untouched. -/
def resize_and_crop (video : Clip) (target_size : ℤ × ℤ) : Clip :=
  { video with size := target_size }

/-- Per-scene body of the loop in `composite_scenes` (lines 43-67): when the
scene's audio is absent (missing key, empty path or nonexistent file,
modelled as `none`) the raw video clip is appended unchanged; otherwise the
clip is synchronized to the audio and, if its size differs from
`target_size`, resized and cropped. -/
def process_scene (target_size : ℤ × ℤ) (video : Clip) (audio : Option ℚ) : Clip :=
  match audio with
  | none => video
  | some da =>
    let synced := sync_clip video da
    if synced.size ≠ target_size then resize_and_crop synced target_size else synced

/-- Embedding of `composite_scenes`: the per-scene processing over the zipped list of
scene videos and audio assets (the crossfade concatenation and file output
that follow are not part of any verified property). -/
def composite_scenes (target_size : ℤ × ℤ) (scenes : List (Clip × Option ℚ)) :
    List Clip :=
  scenes.map fun p => process_scene target_size p.1 p.2

/-! ## C1: branch selection policy of duration reconciliation -/

/-- C1.  Duration reconciliation selects its branch by the ordered policy:
within `0.1s` the track passes through unchanged; else a longer visual track
is trimmed to `[0, Da)`; else with `speed_factor = Dv / Da`, a factor `≥ 0.7`
(including exactly `0.7`) takes the uniform-stretch branch and a factor
`< 0.7` takes the stretch-then-freeze branch. -/
theorem sync_branch_policy (dv da : ℚ) :
    (|dv - da| < 1/10 → sync_video_to_audio dv da = .passthrough dv) ∧
    (¬ |dv - da| < 1/10 → dv > da → sync_video_to_audio dv da = .trimmed da) ∧
    (¬ |dv - da| < 1/10 → ¬ dv > da → 7/10 ≤ dv / da →
      sync_video_to_audio dv da = .stretched (dv / da) (dv / (dv / da))) ∧
    (¬ |dv - da| < 1/10 → ¬ dv > da → dv / da < 7/10 →
      sync_video_to_audio dv da = .stretchFreeze (dv / (7/10)) (da - dv / (7/10))) := by
  refine ⟨fun h1 => ?_, fun h1 h2 => ?_, fun h1 h2 h3 => ?_, fun h1 h2 h3 => ?_⟩
  · simp only [sync_video_to_audio, if_pos h1]
  · simp only [sync_video_to_audio, if_neg h1, if_pos h2]
  · simp only [sync_video_to_audio, if_neg h1, if_neg h2]
    rw [if_pos h3]
  · simp only [sync_video_to_audio, if_neg h1, if_neg h2]
    rw [if_neg (not_le.mpr h3)]

/-- Witness for `sync_branch_policy`: `Dv = 7`, `Da = 10` gives
`speed_factor` exactly `0.7` and the uniform-stretch branch. -/
theorem sync_branch_policy_witness :
    sync_video_to_audio 7 10 = .stretched (7/10) (7 / (7/10)) := by
  have h := (sync_branch_policy 7 10).2.2.1 (by norm_num [abs_sub_lt_iff])
    (by norm_num) (by norm_num)
  simpa using h

/-! ## C2: final duration of the reconciled track -/

/-- C2 counterexample.  For `Dv = 10s`, `Da = 10.05s` the pass-through
branch is taken and the reconciled track keeps the video's duration `10s`:
`with_audio` does not change the clip's duration, so the final duration is
not equal to `Da = 10.05s`. -/
theorem sync_final_duration_counterexample :
    sync_video_to_audio 10 (201/20) = .passthrough 10 ∧
    (sync_video_to_audio 10 (201/20)).finalDuration ≠ 201/20 := by
  have h : sync_video_to_audio 10 (201/20) = .passthrough 10 := by
    simp only [sync_video_to_audio]
    rw [if_pos (by rw [abs_sub_lt_iff]; norm_num)]
  refine ⟨h, ?_⟩
  rw [h]
  simp only [SyncResult.finalDuration]
  norm_num

/-- C2 amended.  In the trim, uniform-stretch and stretch-plus-freeze
branches the reconciled track's duration equals `Da` exactly; in the
pass-through branch it equals `Dv`, which is within `0.1s` of `Da`. -/
theorem sync_final_duration (dv da : ℚ) :
    (|dv - da| < 1/10 →
      (sync_video_to_audio dv da).finalDuration = dv ∧
      |(sync_video_to_audio dv da).finalDuration - da| < 1/10) ∧
    (¬ |dv - da| < 1/10 → (sync_video_to_audio dv da).finalDuration = da) := by
  constructor
  · intro h1
    have h : sync_video_to_audio dv da = .passthrough dv := by
      simp only [sync_video_to_audio, if_pos h1]
    rw [h]
    exact ⟨rfl, h1⟩
  · intro h1
    simp only [sync_video_to_audio, if_neg h1]
    by_cases h2 : dv > da
    · rw [if_pos h2]
      rfl
    · rw [if_neg h2]
      by_cases h3 : dv / da ≥ 7/10
      · rw [if_pos h3]
        simp only [SyncResult.finalDuration]
        have hdv : dv ≠ 0 := by
          intro h
          rw [h, zero_div] at h3
          norm_num at h3
        have hda : da ≠ 0 := by
          intro h
          rw [h, div_zero] at h3
          norm_num at h3
        field_simp
      · rw [if_neg h3]
        simp only [SyncResult.finalDuration]
        ring

/-- Witness for `sync_final_duration`: `Dv = 6`, `Da = 8` (Scenario C) gives
a reconciled duration of exactly `8s`. -/
theorem sync_final_duration_witness :
    (sync_video_to_audio 6 8).finalDuration = 8 :=
  (sync_final_duration 6 8).2 (by rw [abs_sub_lt_iff]; norm_num)

/-! ## C8: the freeze duration is never negative -/

/-- C8.  Every pair of durations that reaches the stretch-plus-freeze branch
(gap at least `0.1s`, visual not longer, `speed_factor < 0.7`) yields a
nonnegative remaining freeze duration `Da - Dv / 0.7`: clamping it to zero
is the identity, so a negative freeze duration is never produced.  (The
branch guard itself enforces this; no explicit clamp is needed.) -/
theorem freeze_duration_nonneg (dv da : ℚ)
    (h1 : ¬ |dv - da| < 1/10) (h2 : ¬ dv > da) (h3 : dv / da < 7/10) :
    sync_video_to_audio dv da = .stretchFreeze (dv / (7/10)) (da - dv / (7/10)) ∧
    0 ≤ da - dv / (7/10) ∧
    max 0 (da - dv / (7/10)) = da - dv / (7/10) := by
  have hbr : sync_video_to_audio dv da = .stretchFreeze (dv / (7/10)) (da - dv / (7/10)) := by
    simp only [sync_video_to_audio, if_neg h1, if_neg h2]
    rw [if_neg (not_le.mpr h3)]
  have hnn : 0 ≤ da - dv / (7/10) := by
    rcases lt_trichotomy da 0 with hda | hda | hda
    · exfalso
      have hlt := (div_lt_iff_of_neg hda).mp h3
      have hle : dv ≤ da := not_lt.mp h2
      nlinarith
    · subst hda
      have hle : dv ≤ 0 := not_lt.mp h2
      have : dv / (7/10) ≤ 0 := div_nonpos_iff.mpr (Or.inr ⟨hle, by norm_num⟩)
      linarith
    · have hlt := (div_lt_iff₀ hda).mp h3
      have : dv / (7/10) < da := by
        rw [div_lt_iff₀ (by norm_num : (0:ℚ) < 7/10)]
        nlinarith
      linarith
  exact ⟨hbr, hnn, max_eq_right hnn⟩

/-- Witness for `freeze_duration_nonneg`: `Dv = 1`, `Da = 10` reaches the
freeze branch with freeze duration `10 - 10/7 ≥ 0`. -/
theorem freeze_duration_nonneg_witness :
    sync_video_to_audio 1 10 = .stretchFreeze (1 / (7/10)) (10 - 1 / (7/10)) ∧
    0 ≤ (10 : ℚ) - 1 / (7/10) ∧
    max 0 ((10 : ℚ) - 1 / (7/10)) = 10 - 1 / (7/10) :=
  freeze_duration_nonneg 1 10 (by rw [abs_sub_lt_iff]; norm_num)
    (by norm_num) (by norm_num)

/-! ## C3: line grouping is a partition of the word-mark sequence -/

/-- Loop invariant for the grouping loop: the concatenation of the produced
lines equals the already-flushed lines, then the current line, then the
unprocessed marks. -/
theorem group_words_loop_flatten (mw : ℕ) (mlw ws fs : ℚ) :
    ∀ (rest : List SpeechMark) (lines : List (List SpeechMark))
      (curr : List SpeechMark) (cw : ℚ),
      (group_words_loop mw mlw ws fs rest lines curr cw).flatten
        = lines.flatten ++ curr ++ rest := by
  intro rest
  induction rest with
  | nil =>
    intro lines curr cw
    by_cases h : curr = [] <;> simp [group_words_loop, h]
  | cons m rest ih =>
    intro lines curr cw
    simp only [group_words_loop]
    by_cases h : mw ≤ curr.length ∨ (mlw < cw + estimated_width fs m.value ∧ curr ≠ [])
    · rw [if_pos h, ih]
      simp
    · rw [if_neg h, ih]
      simp

/-- C3.  For every non-empty word-mark sequence, the concatenation of the
grouped lines, in order, is exactly the original sequence: no drops, no
duplicates, no reordering. -/
theorem group_words_partition (mw : ℕ) (mlw ws fs : ℚ)
    (marks : List SpeechMark) (_hne : marks ≠ []) :
    (group_words mw mlw ws fs marks).flatten = marks := by
  unfold group_words
  rw [group_words_loop_flatten]
  simp

/-- Witness for `group_words_partition`: the Scenario A marks regroup to
exactly themselves. -/
theorem group_words_partition_witness :
    (group_words 3 900 15 65
      [⟨"word", "Hello", 0⟩, ⟨"word", "world", 500⟩, ⟨"word", "today", 1100⟩]).flatten
      = [⟨"word", "Hello", 0⟩, ⟨"word", "world", 500⟩, ⟨"word", "today", 1100⟩] :=
  group_words_partition 3 900 15 65 _ (by simp)

/-! ## C4: per-line word-count and width budget -/

/-- C4 counterexample.  With the source's constants
(`max_words_per_line = 3`, `max_line_width = 900`, `word_spacing = 15`,
`font_size = 65`, estimated width `52` per character), the input words of
lengths `18, 1, 1, 15` produce a second line of three marks whose cumulative
width including inter-word spacing is `52 + 52 + 780 + 2 * 15 = 914 > 900`:
after a line break the loop restarts `current_width` without the spacing it
adds on the very first word, so non-first lines can exceed the budget while
holding more than one mark. -/
theorem group_words_width_counterexample :
    group_words 3 900 15 65
      [⟨"word", "aaaaaaaaaaaaaaaaaa", 0⟩, ⟨"word", "a", 1000⟩,
       ⟨"word", "b", 2000⟩, ⟨"word", "aaaaaaaaaaaaaaa", 3000⟩]
      = [[⟨"word", "aaaaaaaaaaaaaaaaaa", 0⟩],
         [⟨"word", "a", 1000⟩, ⟨"word", "b", 2000⟩, ⟨"word", "aaaaaaaaaaaaaaa", 3000⟩]] ∧
    line_width 15 65
      [⟨"word", "a", 1000⟩, ⟨"word", "b", 2000⟩, ⟨"word", "aaaaaaaaaaaaaaa", 3000⟩] = 914 ∧
    (900 : ℚ) < 914 ∧
    ([⟨"word", "a", 1000⟩, ⟨"word", "b", 2000⟩,
      ⟨"word", "aaaaaaaaaaaaaaa", 3000⟩] : List SpeechMark).length ≠ 1 := by
  refine ⟨?_, ?_, by norm_num, by simp⟩
  · norm_num [group_words, group_words_loop, estimated_width,
      show ("aaaaaaaaaaaaaaaaaa".length = 18) from rfl,
      show ("a".length = 1) from rfl, show ("b".length = 1) from rfl,
      show ("aaaaaaaaaaaaaaa".length = 15) from rfl, List.cons_ne_nil]
  · norm_num [line_width, estimated_width,
      show ("a".length = 1) from rfl, show ("b".length = 1) from rfl,
      show ("aaaaaaaaaaaaaaa".length = 15) from rfl]

/-- The `line_width` of the empty line is `0`. -/
theorem line_width_nil (ws fs : ℚ) : line_width ws fs [] = 0 := by
  simp [line_width]

/-- The `line_width` of a one-mark line is that mark's estimated width. -/
theorem line_width_singleton (ws fs : ℚ) (m : SpeechMark) :
    line_width ws fs [m] = estimated_width fs m.value := by
  simp [line_width]

/-- Appending one mark to a non-empty line adds one inter-word spacing plus
the mark's estimated width. -/
theorem line_width_append (ws fs : ℚ) (l : List SpeechMark) (hl : l ≠ [])
    (m : SpeechMark) :
    line_width ws fs (l ++ [m])
      = line_width ws fs l + ws + estimated_width fs m.value := by
  obtain ⟨a, l', rfl⟩ : ∃ a l', l = a :: l' := by
    cases l with
    | nil => exact absurd rfl hl
    | cons a l' => exact ⟨a, l', rfl⟩
  simp only [line_width, List.map_append, List.sum_append, List.map_cons,
    List.map_nil, List.sum_cons, List.sum_nil, List.length_append,
    List.length_cons, List.length_nil, Nat.add_sub_cancel]
  push_cast
  ring

/-- Loop invariant for the amended width/count bound: every already-flushed
line and the current line hold at most `max_words` marks, and any of them
with at least two marks has cumulative width at most
`max_line_width + word_spacing`; the running `current_width` dominates the
current line's width. -/
theorem group_words_loop_invariant (mw : ℕ) (mlw ws fs : ℚ)
    (hmw : 1 ≤ mw) (hws : 0 ≤ ws) :
    ∀ (rest : List SpeechMark) (lines : List (List SpeechMark))
      (curr : List SpeechMark) (cw : ℚ),
      (∀ l ∈ lines, l.length ≤ mw ∧ (2 ≤ l.length → line_width ws fs l ≤ mlw + ws)) →
      curr.length ≤ mw →
      (2 ≤ curr.length → line_width ws fs curr ≤ mlw + ws) →
      line_width ws fs curr ≤ cw →
      ∀ l ∈ group_words_loop mw mlw ws fs rest lines curr cw,
        l.length ≤ mw ∧ (2 ≤ l.length → line_width ws fs l ≤ mlw + ws) := by
  intro rest
  induction rest with
  | nil =>
    intro lines curr cw hlines hc1 hc2 _hc3 l hl
    simp only [group_words_loop] at hl
    by_cases h : curr = []
    · rw [if_pos h] at hl
      exact hlines l hl
    · rw [if_neg h] at hl
      rcases List.mem_append.mp hl with h' | h'
      · exact hlines l h'
      · rw [List.mem_singleton.mp h']
        exact ⟨hc1, hc2⟩
  | cons m rest ih =>
    intro lines curr cw hlines hc1 hc2 hc3 l hl
    simp only [group_words_loop] at hl
    by_cases h : mw ≤ curr.length ∨ (mlw < cw + estimated_width fs m.value ∧ curr ≠ [])
    · rw [if_pos h] at hl
      refine ih _ _ _ ?_ ?_ ?_ ?_ l hl
      · intro l' hl'
        rcases List.mem_append.mp hl' with h' | h'
        · exact hlines l' h'
        · rw [List.mem_singleton.mp h']
          exact ⟨hc1, hc2⟩
      · simpa using hmw
      · intro h2
        simp at h2
      · rw [line_width_singleton]
    · rw [if_neg h] at hl
      push_neg at h
      obtain ⟨hlen, hwidth⟩ := h
      refine ih _ _ _ hlines ?_ ?_ ?_ l hl
      · simpa using hlen
      · intro h2
        by_cases hc : curr = []
        · subst hc
          simp at h2
        · have hle : cw + estimated_width fs m.value ≤ mlw := by
            by_contra hcon
            exact hc (hwidth (not_le.mp hcon))
          rw [line_width_append ws fs curr hc m]
          calc line_width ws fs curr + ws + estimated_width fs m.value
              ≤ cw + ws + estimated_width fs m.value := by linarith
            _ ≤ mlw + ws := by linarith
      · by_cases hc : curr = []
        · subst hc
          rw [line_width_nil] at hc3
          simp only [List.nil_append]
          rw [line_width_singleton]
          linarith
        · rw [line_width_append ws fs curr hc m]
          linarith

/-- C4 amended.  Every produced line holds at most `max_words_per_line`
marks (for `max_words_per_line ≥ 1` and nonnegative spacing), and every line
holding at least two marks has cumulative estimated width, including
inter-word spacing, at most `max_line_width + word_spacing` (the budget can
be exceeded by at most one inter-word spacing, as the counterexample forces);
single-mark lines may exceed the budget arbitrarily. -/
theorem group_words_line_invariant (mw : ℕ) (mlw ws fs : ℚ)
    (hmw : 1 ≤ mw) (hws : 0 ≤ ws) (marks : List SpeechMark) :
    ∀ l ∈ group_words mw mlw ws fs marks,
      l.length ≤ mw ∧ (2 ≤ l.length → line_width ws fs l ≤ mlw + ws) := by
  unfold group_words
  refine group_words_loop_invariant mw mlw ws fs hmw hws marks [] [] 0
    (by simp) (by simp) (by simp) ?_
  rw [line_width_nil]

/-- Witness for `group_words_line_invariant`: the single line produced for
the Scenario A marks satisfies the count bound and the width bound. -/
theorem group_words_line_invariant_witness :
    ([⟨"word", "Hello", 0⟩, ⟨"word", "world", 500⟩,
      ⟨"word", "today", 1100⟩] : List SpeechMark).length ≤ 3 ∧
    (2 ≤ ([⟨"word", "Hello", 0⟩, ⟨"word", "world", 500⟩,
      ⟨"word", "today", 1100⟩] : List SpeechMark).length →
      line_width 15 65 [⟨"word", "Hello", 0⟩, ⟨"word", "world", 500⟩,
        ⟨"word", "today", 1100⟩] ≤ 900 + 15) := by
  apply group_words_line_invariant 3 900 15 65 (by norm_num) (by norm_num)
    [⟨"word", "Hello", 0⟩, ⟨"word", "world", 500⟩, ⟨"word", "today", 1100⟩]
  have h : group_words 3 900 15 65
      [⟨"word", "Hello", 0⟩, ⟨"word", "world", 500⟩, ⟨"word", "today", 1100⟩]
      = [[⟨"word", "Hello", 0⟩, ⟨"word", "world", 500⟩, ⟨"word", "today", 1100⟩]] := by
    norm_num [group_words, group_words_loop, estimated_width,
      show ("Hello".length = 5) from rfl, show ("world".length = 5) from rfl,
      show ("today".length = 5) from rfl, List.cons_ne_nil]
  rw [h]
  exact List.mem_singleton.mpr rfl

/-! ## C5: line visibility windows -/

/-- Reading `getD` after dropping a prefix. -/
theorem getD_drop_pair (L : List (ℚ × ℚ)) (n k : ℕ) (d : ℚ × ℚ) :
    (L.drop n).getD k d = L.getD (n + k) d := by
  simp [List.getD, List.getElem?_drop]

/-- Unfolding `line_timings` on a list with a non-empty tail: one timing entry per
line, the first computed against the next line's first timestamp. -/
theorem line_timings_cons_cons (ss : ℚ) (l nxt : List SpeechMark)
    (rest : List (List SpeechMark)) :
    line_timings ss (l :: nxt :: rest)
      = (max 0 (first_time l / 1000 + ss),
          max (1/5) (first_time nxt / 1000 - first_time l / 1000))
        :: line_timings ss (nxt :: rest) := by
  simp [line_timings]

/-- Dropping the timings of a prefix of lines leaves the timings of the
remaining lines (the entries of a suffix only depend on the suffix). -/
theorem line_timings_drop (ss : ℚ) :
    ∀ (pre x : List (List SpeechMark)), x ≠ [] →
      (line_timings ss (pre ++ x)).drop pre.length = line_timings ss x := by
  intro pre
  induction pre with
  | nil => intro x _; simp
  | cons p pre ih =>
    intro x hx
    obtain ⟨y, ys, hys⟩ : ∃ y ys, pre ++ x = y :: ys := by
      cases h : pre ++ x with
      | nil => exact absurd (List.append_eq_nil.mp h).2 hx
      | cons y ys => exact ⟨y, ys, rfl⟩
    rw [List.cons_append, hys, line_timings_cons_cons, List.length_cons,
      List.drop_succ_cons, ← hys]
    exact ih x hx

/-- The first timing entry's start is the clamped offset first-word start,
whatever follows the first line. -/
theorem line_timings_head_start (ss : ℚ) (l : List SpeechMark)
    (t : List (List SpeechMark)) :
    ((line_timings ss (l :: t)).getD 0 (0, 0)).1
      = max 0 (first_time l / 1000 + ss) := by
  cases t with
  | nil => simp [line_timings]
  | cons nxt rest => rw [line_timings_cons_cons]; simp

/-- C5 amended.  Every line window has duration at least `0.2s` and a
strictly later end than start.  A line followed by another starts at its
first word's offset start time (for nonnegative scene offset and
timestamps), and its window end equals the next line's start exactly when
the gap between the two lines' first-word start times is at least the
`0.2s` duration floor (for smaller gaps the clamp makes the windows
overlap, as the counterexample forces).  The last line's window is its
first word's offset start to its last word's start plus `0.8s`. -/
theorem line_timings_spec (ss : ℚ) (lines : List (List SpeechMark)) :
    (∀ td ∈ line_timings ss lines, 1/5 ≤ td.2 ∧ td.1 < td.1 + td.2) ∧
    (∀ (pre : List (List SpeechMark)) (l1 l2 : List SpeechMark)
       (rest : List (List SpeechMark)),
      lines = pre ++ l1 :: l2 :: rest → 0 ≤ ss → 0 ≤ first_time l1 →
      ((line_timings ss lines).getD pre.length (0, 0)).1
          = first_time l1 / 1000 + ss ∧
      (first_time l1 / 1000 + 1/5 ≤ first_time l2 / 1000 → 0 ≤ first_time l2 →
        ((line_timings ss lines).getD pre.length (0, 0)).1
            + ((line_timings ss lines).getD pre.length (0, 0)).2
          = ((line_timings ss lines).getD (pre.length + 1) (0, 0)).1)) ∧
    (∀ (pre : List (List SpeechMark)) (l : List SpeechMark),
      lines = pre ++ [l] → 0 ≤ ss → 0 ≤ first_time l →
      first_time l ≤ last_time l →
      (line_timings ss lines).getD pre.length (0, 0)
        = (first_time l / 1000 + ss,
           last_time l / 1000 + 4/5 - first_time l / 1000)) := by
  refine ⟨?_, ?_, ?_⟩
  · induction lines with
    | nil => simp [line_timings]
    | cons l t ih =>
      cases t with
      | nil =>
        intro td htd
        simp only [line_timings, List.mem_singleton] at htd
        subst htd
        constructor
        · exact le_max_left _ _
        · have : (0 : ℚ) < 1/5 := by norm_num
          have h2 := le_max_left (1/5 : ℚ)
            (last_time l / 1000 + 4/5 - first_time l / 1000)
          linarith
      | cons nxt rest =>
        intro td htd
        rw [line_timings_cons_cons] at htd
        rcases List.mem_cons.mp htd with h | h
        · subst h
          constructor
          · exact le_max_left _ _
          · have h2 := le_max_left (1/5 : ℚ)
              (first_time nxt / 1000 - first_time l / 1000)
            have : (0 : ℚ) < 1/5 := by norm_num
            linarith
        · exact ih td h
  · intro pre l1 l2 rest hsplit hss hf1
    subst hsplit
    have hdrop := line_timings_drop ss pre (l1 :: l2 :: rest) (by simp)
    have hg0 : (line_timings ss (pre ++ l1 :: l2 :: rest)).getD pre.length (0, 0)
        = (line_timings ss (l1 :: l2 :: rest)).getD 0 (0, 0) := by
      have h := congrArg (fun t => t.getD 0 ((0 : ℚ), (0 : ℚ))) hdrop
      simp only [getD_drop_pair] at h
      simpa using h
    have hg1 : (line_timings ss (pre ++ l1 :: l2 :: rest)).getD (pre.length + 1) (0, 0)
        = (line_timings ss (l1 :: l2 :: rest)).getD 1 (0, 0) := by
      have h := congrArg (fun t => t.getD 1 ((0 : ℚ), (0 : ℚ))) hdrop
      simp only [getD_drop_pair] at h
      simpa using h
    have hstart : (0 : ℚ) ≤ first_time l1 / 1000 + ss := by positivity
    constructor
    · rw [hg0, line_timings_cons_cons]
      simp only [List.getD_cons_zero]
      exact max_eq_right hstart
    · intro hgap hf2
      rw [hg0, hg1, line_timings_cons_cons]
      simp only [List.getD_cons_zero, List.getD_cons_succ]
      have hmax1 : max 0 (first_time l1 / 1000 + ss) = first_time l1 / 1000 + ss :=
        max_eq_right hstart
      have hmax2 : max (1/5) (first_time l2 / 1000 - first_time l1 / 1000)
          = first_time l2 / 1000 - first_time l1 / 1000 :=
        max_eq_right (by linarith)
      rw [hmax1, hmax2, line_timings_head_start]
      rw [max_eq_right (by positivity : (0:ℚ) ≤ first_time l2 / 1000 + ss)]
      ring
  · intro pre l hsplit hss hf hfl
    subst hsplit
    have hdrop := line_timings_drop ss pre [l] (by simp)
    have hg0 : (line_timings ss (pre ++ [l])).getD pre.length (0, 0)
        = (line_timings ss [l]).getD 0 (0, 0) := by
      have h := congrArg (fun t => t.getD 0 ((0 : ℚ), (0 : ℚ))) hdrop
      simp only [getD_drop_pair] at h
      simpa using h
    rw [hg0]
    simp only [line_timings, List.getD_cons_zero]
    rw [max_eq_right (by positivity : (0:ℚ) ≤ first_time l / 1000 + ss)]
    rw [max_eq_right (by linarith : (1:ℚ)/5 ≤ last_time l / 1000 + 4/5 - first_time l / 1000)]

/-- Witness for `line_timings_spec`: two one-word lines starting `0.3s`
apart abut exactly, and the first window starts at the first word's start. -/
theorem line_timings_spec_witness :
    ((line_timings 0 [[⟨"word", "a", 0⟩], [⟨"word", "b", 300⟩]]).getD 0 (0, 0)).1
        = first_time [⟨"word", "a", 0⟩] / 1000 + 0 ∧
    ((line_timings 0 [[⟨"word", "a", 0⟩], [⟨"word", "b", 300⟩]]).getD 0 (0, 0)).1
        + ((line_timings 0 [[⟨"word", "a", 0⟩], [⟨"word", "b", 300⟩]]).getD 0 (0, 0)).2
      = ((line_timings 0 [[⟨"word", "a", 0⟩], [⟨"word", "b", 300⟩]]).getD 1 (0, 0)).1 := by
  have h := (line_timings_spec 0 [[⟨"word", "a", 0⟩], [⟨"word", "b", 300⟩]]).2.1
    [] [⟨"word", "a", 0⟩] [⟨"word", "b", 300⟩] [] rfl le_rfl
    (by norm_num [first_time])
  exact ⟨h.1, h.2 (by norm_num [first_time]) (by norm_num [first_time])⟩

/-- C5 counterexample.  Two one-word lines whose first words start `0.1s`
apart (words of nine characters each, so the width budget forces a line
break): the first line's window is `[0s, 0.2s]` because of the `0.2s`
duration floor, while the second line starts at `0.1s` — the first line's
end time does not equal the next line's start time, and the windows
overlap. -/
theorem line_timings_counterexample :
    line_timings 0 (group_words 3 900 15 65
      [⟨"word", "wwwwwwwww", 0⟩, ⟨"word", "xxxxxxxxx", 100⟩])
      = [(0, 1/5), (1/10, 4/5)] ∧
    ((line_timings 0 (group_words 3 900 15 65
        [⟨"word", "wwwwwwwww", 0⟩, ⟨"word", "xxxxxxxxx", 100⟩])).getD 0 (0, 0)).1
      + ((line_timings 0 (group_words 3 900 15 65
        [⟨"word", "wwwwwwwww", 0⟩, ⟨"word", "xxxxxxxxx", 100⟩])).getD 0 (0, 0)).2
      ≠ ((line_timings 0 (group_words 3 900 15 65
        [⟨"word", "wwwwwwwww", 0⟩, ⟨"word", "xxxxxxxxx", 100⟩])).getD 1 (0, 0)).1 := by
  have hg : group_words 3 900 15 65
      [⟨"word", "wwwwwwwww", 0⟩, ⟨"word", "xxxxxxxxx", 100⟩]
      = [[⟨"word", "wwwwwwwww", 0⟩], [⟨"word", "xxxxxxxxx", 100⟩]] := by
    norm_num [group_words, group_words_loop, estimated_width,
      show ("wwwwwwwww".length = 9) from rfl,
      show ("xxxxxxxxx".length = 9) from rfl, List.cons_ne_nil]
  have ht : line_timings 0 ([[⟨"word", "wwwwwwwww", 0⟩], [⟨"word", "xxxxxxxxx", 100⟩]]
      : List (List SpeechMark)) = [(0, 1/5), (1/10, 4/5)] := by
    norm_num [line_timings, first_time, last_time]
  rw [hg, ht]
  norm_num [List.getD]

/-! ## C6: per-word highlight windows -/

/-- Unfolding `word_timings_line` on a word with a successor in the same line. -/
theorem word_timings_cons_cons (ss ls ld : ℚ) (m nxt : SpeechMark)
    (rest : List SpeechMark) :
    word_timings_line ss ls ld (m :: nxt :: rest)
      = (m.time / 1000 + ss,
          max (1/10) (nxt.time / 1000 + ss - (m.time / 1000 + ss)))
        :: word_timings_line ss ls ld (nxt :: rest) := by
  simp [word_timings_line]

/-- Dropping the timing entries of a word prefix leaves the entries of the
remaining words. -/
theorem word_timings_drop (ss ls ld : ℚ) :
    ∀ (pre x : List SpeechMark), x ≠ [] →
      (word_timings_line ss ls ld (pre ++ x)).drop pre.length
        = word_timings_line ss ls ld x := by
  intro pre
  induction pre with
  | nil => intro x _; simp
  | cons p pre ih =>
    intro x hx
    obtain ⟨y, ys, hys⟩ : ∃ y ys, pre ++ x = y :: ys := by
      cases h : pre ++ x with
      | nil => exact absurd (List.append_eq_nil.mp h).2 hx
      | cons y ys => exact ⟨y, ys, rfl⟩
    rw [List.cons_append, hys, word_timings_cons_cons, List.length_cons,
      List.drop_succ_cons, ← hys]
    exact ih x hx

/-- C6 amended.  Every highlight window has duration at least `0.1s` (so
start ≤ end).  A word followed by another in the same line starts at its own
offset start time and its window duration is `max(0.1, next start − own
start)` — the window ends at the next word's start exactly when the two
words start at least `0.1s` apart (for smaller gaps the floor pushes the end
past the next word's start, as the counterexample forces).  The line's last
word's window runs from its own start with duration `max(0.1, line end −
own start)`, where line end is `line_start_rel + line_duration`. -/
theorem word_timings_spec (ss ls ld : ℚ) (line : List SpeechMark) :
    (∀ wt ∈ word_timings_line ss ls ld line, 1/10 ≤ wt.2 ∧ wt.1 ≤ wt.1 + wt.2) ∧
    (∀ (pre : List SpeechMark) (m1 m2 : SpeechMark) (rest : List SpeechMark),
      line = pre ++ m1 :: m2 :: rest →
      (word_timings_line ss ls ld line).getD pre.length (0, 0)
        = (m1.time / 1000 + ss,
           max (1/10) (m2.time / 1000 + ss - (m1.time / 1000 + ss)))) ∧
    (∀ (pre : List SpeechMark) (m : SpeechMark),
      line = pre ++ [m] →
      (word_timings_line ss ls ld line).getD pre.length (0, 0)
        = (m.time / 1000 + ss, max (1/10) (ls + ld - (m.time / 1000 + ss)))) := by
  refine ⟨?_, ?_, ?_⟩
  · induction line with
    | nil => simp [word_timings_line]
    | cons m t ih =>
      cases t with
      | nil =>
        intro wt hwt
        simp only [word_timings_line, List.mem_singleton] at hwt
        subst hwt
        have h2 := le_max_left (1/10 : ℚ) (ls + ld - (m.time / 1000 + ss))
        exact ⟨h2, by linarith⟩
      | cons nxt rest =>
        intro wt hwt
        rw [word_timings_cons_cons] at hwt
        rcases List.mem_cons.mp hwt with h | h
        · subst h
          have h2 := le_max_left (1/10 : ℚ)
            (nxt.time / 1000 + ss - (m.time / 1000 + ss))
          exact ⟨h2, by linarith⟩
        · exact ih wt h
  · intro pre m1 m2 rest hsplit
    subst hsplit
    have hdrop := word_timings_drop ss ls ld pre (m1 :: m2 :: rest) (by simp)
    have hg : (word_timings_line ss ls ld (pre ++ m1 :: m2 :: rest)).getD pre.length (0, 0)
        = (word_timings_line ss ls ld (m1 :: m2 :: rest)).getD 0 (0, 0) := by
      have h := congrArg (fun t => t.getD 0 ((0 : ℚ), (0 : ℚ))) hdrop
      simp only [getD_drop_pair] at h
      simpa using h
    rw [hg, word_timings_cons_cons]
    simp
  · intro pre m hsplit
    subst hsplit
    have hdrop := word_timings_drop ss ls ld pre [m] (by simp)
    have hg : (word_timings_line ss ls ld (pre ++ [m])).getD pre.length (0, 0)
        = (word_timings_line ss ls ld [m]).getD 0 (0, 0) := by
      have h := congrArg (fun t => t.getD 0 ((0 : ℚ), (0 : ℚ))) hdrop
      simp only [getD_drop_pair] at h
      simpa using h
    rw [hg]
    simp [word_timings_line]

/-- Witness for `word_timings_spec`: Scenario A.  With the marks
`[("Hello",0), ("world",500), ("today",1100)]` grouped into a single line
(line start `0`, line duration `1.9s`), the last word `"today"` is
highlighted from `1.1s` for `0.8s`, i.e. until the line end `1.9s`. -/
theorem word_timings_spec_witness :
    (word_timings_line 0 0 (19/10)
      [⟨"word", "Hello", 0⟩, ⟨"word", "world", 500⟩,
       ⟨"word", "today", 1100⟩]).getD 2 (0, 0) = (11/10, 4/5) := by
  have h := (word_timings_spec 0 0 (19/10)
      [⟨"word", "Hello", 0⟩, ⟨"word", "world", 500⟩, ⟨"word", "today", 1100⟩]).2.2
    [⟨"word", "Hello", 0⟩, ⟨"word", "world", 500⟩] ⟨"word", "today", 1100⟩ rfl
  rw [show (2 : ℕ)
      = ([⟨"word", "Hello", 0⟩, ⟨"word", "world", 500⟩] : List SpeechMark).length
    from rfl]
  rw [h]
  norm_num

/-- C6 counterexample.  For the single line built from
`[("a",0), ("b",50)]` (line window `[0, 0.85]`), the first word's highlight
window is `[0, 0.1]` because of the `0.1s` duration floor, but the next
word starts at `0.05s`: the highlight window does not end at the next
word's start time. -/
theorem word_timings_counterexample :
    group_words 3 900 15 65 [⟨"word", "a", 0⟩, ⟨"word", "b", 50⟩]
      = [[⟨"word", "a", 0⟩, ⟨"word", "b", 50⟩]] ∧
    line_timings 0 ([[⟨"word", "a", 0⟩, ⟨"word", "b", 50⟩]] : List (List SpeechMark))
      = [(0, 17/20)] ∧
    word_timings_line 0 0 (17/20) [⟨"word", "a", 0⟩, ⟨"word", "b", 50⟩]
      = [(0, 1/10), (1/20, 4/5)] ∧
    ((word_timings_line 0 0 (17/20)
        [⟨"word", "a", 0⟩, ⟨"word", "b", 50⟩]).getD 0 (0, 0)).1
      + ((word_timings_line 0 0 (17/20)
        [⟨"word", "a", 0⟩, ⟨"word", "b", 50⟩]).getD 0 (0, 0)).2
      ≠ ((word_timings_line 0 0 (17/20)
        [⟨"word", "a", 0⟩, ⟨"word", "b", 50⟩]).getD 1 (0, 0)).1 := by
  have hg : group_words 3 900 15 65 [⟨"word", "a", 0⟩, ⟨"word", "b", 50⟩]
      = [[⟨"word", "a", 0⟩, ⟨"word", "b", 50⟩]] := by
    norm_num [group_words, group_words_loop, estimated_width,
      show ("a".length = 1) from rfl, show ("b".length = 1) from rfl,
      List.cons_ne_nil]
  have ht : line_timings 0 ([[⟨"word", "a", 0⟩, ⟨"word", "b", 50⟩]]
      : List (List SpeechMark)) = [(0, 17/20)] := by
    norm_num [line_timings, first_time, last_time]
  have hw : word_timings_line 0 0 (17/20) [⟨"word", "a", 0⟩, ⟨"word", "b", 50⟩]
      = [(0, 1/10), (1/20, 4/5)] := by
    norm_num [word_timings_line]
  refine ⟨hg, ht, hw, ?_⟩
  rw [hw]
  norm_num [List.getD]

/-! ## C7: fallback for utterances without word marks -/

/-- C7 counterexample.  A non-empty speech-mark list containing no
`"word"`-type marks (so the utterance's WordMark sequence is empty) takes
the karaoke path, whose no-word-marks early return produces zero overlays:
no static overlay spanning the utterance is produced. -/
theorem dialogue_overlay_counterexample :
    create_dialogue_overlay_clips 0 5 [⟨"sentence", "Hi", 0⟩] = [] ∧
    ∀ s d : ℚ, create_dialogue_overlay_clips 0 5 [⟨"sentence", "Hi", 0⟩]
      ≠ [Overlay.staticText s d] := by
  have h : create_dialogue_overlay_clips 0 5 [⟨"sentence", "Hi", 0⟩] = [] := by
    simp [create_dialogue_overlay_clips, create_karaoke_clips, List.filter]
  exact ⟨h, fun s d => by rw [h]; simp⟩

/-- C7 amended.  When the loaded speech-mark list is entirely empty, the
dialogue overlay generator produces exactly one static text overlay starting
at the scene start with the full utterance duration; when the list is
non-empty but contains no `"word"`-type marks, it produces no overlays at
all. -/
theorem dialogue_overlay_fallback (ss sd : ℚ) (marks : List SpeechMark) :
    (marks = [] →
      create_dialogue_overlay_clips ss sd marks = [Overlay.staticText ss sd]) ∧
    (marks ≠ [] → marks.filter (fun m => m.type = "word") = [] →
      create_dialogue_overlay_clips ss sd marks = []) := by
  constructor
  · intro h
    simp [create_dialogue_overlay_clips, h]
  · intro h hw
    simp [create_dialogue_overlay_clips, create_karaoke_clips, h, hw]

/-- Witness for `dialogue_overlay_fallback`: an empty mark list for a `5s`
utterance yields exactly one static overlay spanning `[0s, 5s]`. -/
theorem dialogue_overlay_fallback_witness :
    create_dialogue_overlay_clips 0 5 ([] : List SpeechMark)
      = [Overlay.staticText 0 5] :=
  (dialogue_overlay_fallback 0 5 []).1 rfl

/-! ## C9: scene start times from cumulative measured durations -/

/-- The accumulation loop computes `acc` plus the sum of the first `i`
durations at index `i`. -/
theorem scene_start_times_loop_getD :
    ∀ (ds : List ℚ) (acc : ℚ) (i : ℕ), i < ds.length →
      (scene_start_times_loop ds acc).getD i 0 = acc + (ds.take i).sum := by
  intro ds
  induction ds with
  | nil =>
    intro acc i h
    simp at h
  | cons d rest ih =>
    intro acc i h
    cases i with
    | zero => simp [scene_start_times_loop]
    | succ n =>
      simp only [scene_start_times_loop, List.getD_cons_succ,
        List.take_succ_cons, List.sum_cons]
      rw [ih (acc + d) n (by simpa using h)]
      ring

/-- C9.  The first scene's start time is `0`, and scene `i`'s start time is
the sum of the actual measured audio durations of scenes `0..i-1` in scene
order. -/
theorem scene_start_times_spec (ds : List ℚ) :
    (ds ≠ [] → (calculate_scene_start_times ds).getD 0 0 = 0) ∧
    (∀ i, i < ds.length →
      (calculate_scene_start_times ds).getD i 0 = (ds.take i).sum) := by
  constructor
  · intro h
    rw [calculate_scene_start_times,
      scene_start_times_loop_getD ds 0 0 (List.length_pos.mpr h)]
    simp
  · intro i h
    rw [calculate_scene_start_times, scene_start_times_loop_getD ds 0 i h]
    simp

/-- Witness for `scene_start_times_spec`: durations `[2s, 3s]` give the
second scene a start time of `2s`. -/
theorem scene_start_times_spec_witness :
    (calculate_scene_start_times [2, 3]).getD 1 0 = 2 := by
  have h := (scene_start_times_spec [2, 3]).2 1 (by norm_num)
  simpa using h

/-! ## C10: scenes with missing audio pass through unprocessed -/

/-- C10.  A scene whose audio is absent contributes its raw video clip to
the output completely unchanged (no duration synchronization, no
resize/crop, original audio kept), while a scene with audio is synchronized
and, when its size differs from the target, resized and cropped; the output
has one clip per input scene. -/
theorem composite_scenes_missing_audio (target : ℤ × ℤ)
    (scenes : List (Clip × Option ℚ)) :
    (∀ (i : ℕ) (v : Clip), scenes[i]? = some (v, none) →
      (composite_scenes target scenes)[i]? = some v) ∧
    (∀ (i : ℕ) (v : Clip) (da : ℚ), scenes[i]? = some (v, some da) →
      (composite_scenes target scenes)[i]? = some
        (if (sync_clip v da).size ≠ target then
          resize_and_crop (sync_clip v da) target
        else sync_clip v da)) ∧
    (composite_scenes target scenes).length = scenes.length := by
  refine ⟨?_, ?_, by simp [composite_scenes]⟩
  · intro i v h
    rw [composite_scenes, List.getElem?_map, h]
    rfl
  · intro i v da h
    rw [composite_scenes, List.getElem?_map, h]
    rfl

/-- Witness for `composite_scenes_missing_audio`: a single scene with no
audio passes through as the identical clip. -/
theorem composite_scenes_missing_audio_witness :
    (composite_scenes (1080, 1920)
      [(⟨6, (100, 200), none⟩, none)])[0]? = some ⟨6, (100, 200), none⟩ :=
  (composite_scenes_missing_audio (1080, 1920)
    [(⟨6, (100, 200), none⟩, none)]).1 0 ⟨6, (100, 200), none⟩ rfl
